import Mathlib

/-!
Verification of the tforganize Terraform/HCL block sorter.

This file is a shallow embedding of the sorter's core (the `internal/sort`
package): the run-parameter validation, the block/attribute ordering engine
(`getSortedBlockKeys`, `getSortedBlockBytes`, `getBlockBodyBytes`), the
header detector (`findHeaderInLines`, `detectFileHeader`, `addHeader`), the
output-file router, and the line-based unified-diff engine (`diff.go`).

Modelling conventions:
 - Go byte slices holding UTF-8 text are modelled as Lean `String`s.
 - Go maps are modelled as association lists; `for k := range m` iteration
   is modelled as iteration in list order (theorems quantify over the order
   where it matters).
 - The afero filesystem is modelled as a partial map `String → Option String`
   from path to file contents.
 - `filepath.Abs` is modelled as the identity on paths (the code caches file
   lines under both the given path and its absolute form, so the two keys
   coincide in this model).
 - The external HCL parser (`hclParseFn`, an injectable package variable in
   the source) and `hclwrite.Format` are taken as parameters where the
   embedded code calls them.
-/

namespace Tforganize

/-! ## Generic string and association-list helpers -/

/-- Association-list lookup, modelling a Go `map[string]V` read. -/
def lookupStr {α : Type} : List (String × α) → String → Option α
  | [], _ => none
  | (k, v) :: rest, key => if k == key then some v else lookupStr rest key

/-- Insert or replace a binding, modelling a Go `map[string]V` write. -/
def insertStr {α : Type} : List (String × α) → String → α → List (String × α)
  | [], key, v => [(key, v)]
  | (k, w) :: rest, key, v =>
    if k == key then (k, v) :: rest else (k, w) :: insertStr rest key v

/-- Whether `needle` is a substring of `hay`, modelling Go `strings.Contains`. -/
def strContainsAux (hay needle : List Char) : Bool :=
  match hay with
  | [] => needle.isEmpty
  | _ :: rest => needle.isPrefixOf hay || strContainsAux rest needle

/-- Go `strings.Contains hay needle`. -/
def strContains (hay needle : String) : Bool :=
  strContainsAux hay.toList needle.toList

/-- Go `strings.TrimRight s "\n"`: removes every trailing newline. -/
def trimTrailingNewlines (s : String) : String :=
  String.mk ((s.toList.reverse.dropWhile (· == '\n')).reverse)

/-- Go `strings.TrimSpace` (kernel-computable form of `String.trim`). -/
def trimSpace (s : String) : String :=
  String.mk (((s.toList.dropWhile Char.isWhitespace).reverse.dropWhile Char.isWhitespace).reverse)

/-- First `n` characters, modelling a Go prefix slice `s[:n]` on ASCII text. -/
def strTake (s : String) (n : Nat) : String :=
  String.mk (s.toList.take n)

/-- Last `n` characters, modelling a Go suffix slice `s[len-n:]` on ASCII text. -/
def strTakeRight (s : String) (n : Nat) : String :=
  String.mk ((s.toList.reverse.take n).reverse)

/-- Go `strings.HasPrefix`. -/
def strHasPref (s pre : String) : Bool :=
  pre.toList.isPrefixOf s.toList

/-- Go `strings.HasSuffix`. -/
def strHasSuf (s suf : String) : Bool :=
  suf.toList.reverse.isPrefixOf s.toList.reverse

/-- Go `strings.Split(s, "\n")`. -/
def splitOnNLAux : List Char → List Char → List String
  | acc, [] => [String.mk acc.reverse]
  | acc, c :: rest =>
    if c = '\n' then String.mk acc.reverse :: splitOnNLAux [] rest
    else splitOnNLAux (c :: acc) rest

/-- Go `strings.Split(s, "\n")`. -/
def splitOnNewline (s : String) : List String :=
  splitOnNLAux [] s.toList

/-- Go `strings.Join(lines, "\n")`. -/
def joinNL : List String → String
  | [] => ""
  | [x] => x
  | x :: rest => x ++ "\n" ++ joinNL rest

/-- Concatenation of a list of strings (`String.join`). -/
def strJoin : List String → String
  | [] => ""
  | x :: rest => x ++ strJoin rest

/-- Splits file content into lines the way `bufio.Scanner`/`strings.Split`
followed by dropping one trailing empty piece does (the code's
`cacheLinesFromBytes` and line-scanner behaviour on LF-terminated text). -/
def splitToLines (content : String) : List String :=
  let parts := splitOnNewline content
  if parts ≠ [] ∧ parts.getLast! == "" then parts.dropLast else parts

/-! ## Run parameters (`Params` in `sorter.go`) -/

/-- The per-run configuration struct `Params`. Field defaults are Go zero
values, so `{}` is the Go zero-value `Params{}`. -/
structure Params where
  check : Bool := false
  excludes : List String := []
  groupByType : Bool := false
  hasHeader : Bool := false
  headerPattern : String := ""
  headerEndPattern : String := ""
  inline : Bool := false
  keepHeader : Bool := false
  outputDir : String := ""
  recursive : Bool := false
  diff : Bool := false
  noSortByType : Bool := false
  removeComments : Bool := false
deriving Repr, DecidableEq

/-- The flag-combination validation performed at the top of `Sorter.run`
(step 1), before any file is read. Returns the error message produced, or
`none` when the combination is accepted. -/
def validateRunParams (p : Params) : Option String :=
  if p.inline && (p.groupByType || p.outputDir != "") then
    some "the inline flag conflicts with the group-by-type and output-dir flags"
  else if p.keepHeader && (!p.hasHeader || p.headerPattern == "") then
    some "keep-header requires has-header=true and a non-empty header-pattern"
  else if p.check && p.outputDir != "" then
    some "the check flag conflicts with the output-dir flag"
  else if p.diff && p.outputDir != "" then
    some "the diff flag conflicts with the output-dir flag"
  else if p.diff && p.inline then
    some "the diff flag conflicts with the inline flag"
  else
    none

/-! ## Sorter state (`sorter.go`) -/

/-- Model of the afero filesystem: path to file contents. -/
def FileSys : Type := String → Option String

/-- Per-run state `Sorter`: parameters, filesystem, the file-lines cache and
the detected-header cache. -/
structure Sorter where
  params : Params
  fs : FileSys
  linesCache : List (String × List String)
  detectedHeaders : List (String × String)

/-- `NewSorter`: constructs a `Sorter` for one run. A `nil` (`none`)
parameter pointer is replaced by the zero-value `Params`; the caller's
struct is copied, never shared. -/
def NewSorter (params : Option Params) (fs : FileSys) : Sorter :=
  let p := match params with
    | none => {}
    | some q => q
  { params := p, fs := fs, linesCache := [], detectedHeaders := [] }

/-! ## File routing (`terraform.go` / `sortBlocks`) -/

/-- The default aggregate output file for grouped mode. -/
def defaultFileGroup : String := "main.tf"

/-- The static block-type → output-filename table `fileGroups`. -/
def fileGroups : List (String × String) :=
  [("data", "data.tf"),
   ("locals", "locals.tf"),
   ("output", "outputs.tf"),
   ("terraform", "versions.tf"),
   ("variable", "variables.tf")]

/-- Go `filepath.Base`, as used by `getFileNameFromPath`. -/
def getFileNameFromPath (path : String) : String :=
  if path = "" then "." else
  let cs := path.toList.reverse.dropWhile (· == '/')
  if cs = [] then "/" else String.mk ((cs.takeWhile (· != '/')).reverse)

/-- The output-key routing step of `sortBlocks`: the source filename's base
name, or in grouped mode the `fileGroups` entry for the block type with
`defaultFileGroup` as the fallback. -/
def routeOutputKey (p : Params) (blockType : String) (blockFilename : String) : String :=
  let outputKey := getFileNameFromPath blockFilename
  if p.groupByType then
    match lookupStr fileGroups blockType with
    | some v => v
    | none => defaultFileGroup
  else outputKey

/-! ## Comment and header helpers (`hcl.go` / header detector) -/

/-- `stringExists`: linear membership scan over a string slice. -/
def stringExists : List String → String → Bool
  | [], _ => false
  | str :: rest, target => if str == target then true else stringExists rest target

/-- `reverseStringArray` (the source reverses in place by swapping both
ends, which is list reversal). -/
def reverseStringArray (arr : List String) : List String :=
  arr.reverse

/-- `isEmptyLine`: a line is empty when it trims to nothing. -/
def isEmptyLine (line : String) : Bool :=
  (trimSpace line).toList.length == 0

/-- `isStartOfComment`: after trimming, the line starts with `#`, `//` or
`/*`. -/
def isStartOfComment (line : String) : Bool :=
  if isEmptyLine line then false else
  let s := trimSpace line
  if strTake s 1 == "#" then true
  else if s.toList.length ≥ 2 && (strTake s 2 == "//" || strTake s 2 == "/*") then true
  else false

/-- `isEndOfComment`: after trimming, the line ends with `*/`. -/
def isEndOfComment (line : String) : Bool :=
  if isEmptyLine line then false else
  let s := trimSpace line
  s.toList.length ≥ 2 && strTakeRight s 2 == "*/"

/-- The downward loop of `removeTrailingEmptyLines`: while the last two
remaining lines are both empty, truncate to drop the last. -/
def rtelGo (lines : List String) : Nat → List String → List String
  | 0, result => result
  | i + 1, result =>
    if isEmptyLine (lines.getD i "") && isEmptyLine (lines.getD (i + 1) "") then
      rtelGo lines i (lines.take (i + 1))
    else result

/-- `removeTrailingEmptyLines`: truncates extra empty lines from the end. -/
def removeTrailingEmptyLines (lines : List String) : List String :=
  rtelGo lines (lines.length - 1) lines

/-- `removeLeadingEmptyLines`: drops empty lines from the beginning. -/
def removeLeadingEmptyLines : List String → List String
  | [] => []
  | l :: rest => if isEmptyLine l then removeLeadingEmptyLines rest else l :: rest

/-- `getLinesFromFile`: serve the file's lines from the per-run cache or
read them from the filesystem. Cache entries are only ever populated from
the filesystem or by `cacheLinesFromBytes` before sorting begins, so reads
are a pure function of the initial `Sorter` state. -/
def Sorter.getLinesFromFile (s : Sorter) (filename : String) : Except String (List String) :=
  match lookupStr s.linesCache filename with
  | some lines => .ok lines
  | none =>
    match s.fs filename with
    | some content => .ok (splitToLines content)
    | none => .error ("could not open file " ++ filename)

/-- The upward scan of `getNodeComment`, walking from the line above the
node through contiguous comment lines and single blank separators; the
buffer collects lines in reverse order. -/
def ncScan (lines : List String) : Nat → List String → Bool → Bool → List String
  | 0, buffer, _, _ => buffer
  | n + 1, buffer, insertNewLine, insideComment =>
    let line := lines.getD n ""
    if isStartOfComment line then
      let buffer := if insertNewLine then buffer ++ [""] else buffer
      ncScan lines n (buffer ++ [line]) false false
    else if isEndOfComment line then
      let buffer := if insertNewLine then buffer ++ [""] else buffer
      ncScan lines n (buffer ++ [line]) false true
    else if isEmptyLine line then
      ncScan lines n buffer true insideComment
    else if !insideComment then buffer
    else ncScan lines n (buffer ++ [line]) insertNewLine insideComment

/-- Removal of the first occurrence of `pat` from a character list, for the
legacy `strings.Replace(comment, pattern, "", 1)` fallback. -/
def removeFirstOccurAux (pat : List Char) : List Char → List Char
  | [] => []
  | c :: rest =>
    if pat.isPrefixOf (c :: rest) then (c :: rest).drop pat.length
    else c :: removeFirstOccurAux pat rest

/-- Go `strings.Replace(s, pat, "", 1)` (an empty pattern leaves the string
unchanged when the replacement is empty). -/
def replaceFirstWithEmpty (s pat : String) : String :=
  if pat = "" then s else String.mk (removeFirstOccurAux pat.toList s.toList)

/-- The legacy fallback branch of `removeHeader`: exact-substring removal of
the configured pattern from the joined comment. -/
def removeHeaderFallback (p : Params) (lines : List String) : List String :=
  let comment := joinNL lines
  let comment := replaceFirstWithEmpty comment p.headerPattern
  let result := splitOnNewline comment
  let stripped := removeLeadingEmptyLines result
  if !p.keepHeader && stripped.length > 0 && result.length - stripped.length ≥ 2 then
    [""] ++ stripped
  else stripped

/-- `removeHeader`: strip the pre-detected header from a captured comment by
an exact line-by-line prefix match, falling back to legacy substring
removal when no pre-detected header matches. -/
def Sorter.removeHeader (s : Sorter) (lines : List String) (filename : String) : List String :=
  let detectedHeader := (lookupStr s.detectedHeaders filename).getD ""
  if detectedHeader != "" then
    let headerLines := splitOnNewline detectedHeader
    if headerLines.isPrefixOf lines then
      let remaining := lines.drop headerLines.length
      let stripped := removeLeadingEmptyLines remaining
      if !s.params.keepHeader && stripped.length > 0 && remaining.length > stripped.length then
        [""] ++ stripped
      else stripped
    else removeHeaderFallback s.params lines
  else removeHeaderFallback s.params lines

/-- `getNodeComment`: the comment lines attached to the node starting at
`startLine` (0-indexed), with the detected header stripped when header
handling is active and trailing empty lines removed. -/
def Sorter.getNodeComment (s : Sorter) (lines : List String) (startLine : Nat)
    (filename : String) : List String :=
  let buffer := ncScan lines startLine [] false false
  if buffer.length > 0 then
    let comment := reverseStringArray buffer
    let comment := if s.params.hasHeader then s.removeHeader comment filename else comment
    removeTrailingEmptyLines comment
  else []

/-- The leading-lines scan of `findHeaderInLines`: skip leading blanks, then
capture a block comment up to its close (or the configured end pattern) or
a run of `#`/`//` line comments. -/
def findHeaderScan (p : Params) : List String → List String → Bool → List String
  | [], headerLines, _ => headerLines
  | line :: rest, headerLines, insideBlockComment =>
    let trimmed := trimSpace line
    if headerLines.isEmpty && trimmed == "" then
      findHeaderScan p rest headerLines insideBlockComment
    else if insideBlockComment then
      let headerLines := headerLines ++ [line]
      if p.headerEndPattern != "" then
        if strContains trimmed p.headerEndPattern then headerLines
        else findHeaderScan p rest headerLines true
      else if strHasSuf trimmed "*/" then headerLines
      else findHeaderScan p rest headerLines true
    else if strHasPref trimmed "/*" then
      let headerLines := headerLines ++ [line]
      if p.headerEndPattern != "" then
        if strContains trimmed p.headerEndPattern then headerLines
        else findHeaderScan p rest headerLines true
      else if strHasSuf trimmed "*/" then headerLines
      else findHeaderScan p rest headerLines true
    else if strHasPref trimmed "#" || strHasPref trimmed "//" then
      let headerLines := headerLines ++ [line]
      if p.headerEndPattern != "" && strContains trimmed p.headerEndPattern then headerLines
      else findHeaderScan p rest headerLines insideBlockComment
    else headerLines

/-- `findHeaderInLines`: the captured leading comment region, accepted only
when it contains the configured pattern after `strings.TrimRight(pattern,
"\n")`; otherwise the empty string. -/
def findHeaderInLines (p : Params) (lines : List String) : String :=
  let headerLines := findHeaderScan p lines [] false
  if headerLines.isEmpty then "" else
  let header := joinNL headerLines
  let pattern := trimTrailingNewlines p.headerPattern
  if pattern != "" && !(strContains header pattern) then "" else header

/-- `detectFileHeader`: scan the file's lines and record the detected
header (when non-empty) in the per-run detected-header cache. -/
def Sorter.detectFileHeader (s : Sorter) (filename : String) : Except String Sorter :=
  match s.getLinesFromFile filename with
  | .error e => .error e
  | .ok lines =>
    let header := findHeaderInLines s.params lines
    if header != "" then
      .ok { s with detectedHeaders := insertStr s.detectedHeaders filename header }
    else .ok s

/-- `addHeader`: prepend the pre-detected header (followed by a blank line)
when available, else the raw configured pattern followed by a newline. -/
def Sorter.addHeader (s : Sorter) (buffer : String) (filename : String) : String :=
  let header := (lookupStr s.detectedHeaders filename).getD ""
  if header != "" then header ++ "\n\n" ++ buffer
  else s.params.headerPattern ++ "\n" ++ buffer

/-! ## Diff engine (`diff.go`) -/

/-- Edit kinds of the diff engine. -/
inductive EditKind where
  | equal : EditKind
  | delete : EditKind
  | insert : EditKind
deriving Repr, DecidableEq, BEq

/-- One edit of the line-level edit script; `aLine`/`bLine` are 0-indexed
positions into the two line sequences (`-1` when absent, as in the source). -/
structure Edit where
  kind : EditKind
  aLine : Int
  bLine : Int
deriving Repr, DecidableEq

/-- Splitter used by `splitLines` (`strings.SplitAfter(s, "\n")` on the char
list, keeping each newline with its line). -/
def splitAfterNL : List Char → List Char → List (List Char)
  | acc, [] => [acc.reverse]
  | acc, c :: rest =>
    if c = '\n' then (c :: acc).reverse :: splitAfterNL [] rest
    else splitAfterNL (c :: acc) rest

/-- `splitLines`: splits into lines preserving trailing newlines, dropping
the empty piece `SplitAfter` leaves after a final newline; empty input gives
no lines. -/
def splitLines (s : String) : List String :=
  if s = "" then [] else
  let lines := (splitAfterNL [] s.toList).map String.mk
  if lines ≠ [] ∧ lines.getLast! == "" then lines.dropLast else lines

/-- Length of the longest common subsequence, the value computed by the
`lcs` table of `computeEdits` (same tie-breaking as the source's table). -/
def lcsLen : List String → List String → Nat
  | [], _ => 0
  | _ :: _, [] => 0
  | x :: xs, y :: ys =>
    if x == y then lcsLen xs ys + 1
    else if lcsLen xs (y :: ys) ≥ lcsLen (x :: xs) ys then lcsLen xs (y :: ys)
    else lcsLen (x :: xs) ys
termination_by a b => a.length + b.length

/-- The backtracking loop of `computeEdits`, carrying the 0-indexed positions
`i`, `j` into the two inputs. -/
def computeEditsAux : Nat → Nat → List String → List String → List Edit
  | _, _, [], [] => []
  | i, j, [], _ :: ys => ⟨.insert, -1, Int.ofNat j⟩ :: computeEditsAux i (j + 1) [] ys
  | i, j, _ :: xs, [] => ⟨.delete, Int.ofNat i, -1⟩ :: computeEditsAux (i + 1) j xs []
  | i, j, x :: xs, y :: ys =>
    if x == y then ⟨.equal, Int.ofNat i, Int.ofNat j⟩ :: computeEditsAux (i + 1) (j + 1) xs ys
    else if lcsLen xs (y :: ys) ≥ lcsLen (x :: xs) ys then
      ⟨.delete, Int.ofNat i, -1⟩ :: computeEditsAux (i + 1) j xs (y :: ys)
    else
      ⟨.insert, -1, Int.ofNat j⟩ :: computeEditsAux i (j + 1) (x :: xs) ys
termination_by _ _ a b => a.length + b.length

/-- `computeEdits`: edit script between two line sequences via the LCS. -/
def computeEdits (a b : List String) : List Edit :=
  computeEditsAux 0 0 a b

/-- Length of the leading run of non-`equal` edits. -/
def neRunLen : List Edit → Nat
  | [] => 0
  | e :: rest => if e.kind == .equal then 0 else neRunLen rest + 1

/-- The range-finding scan of `groupEdits`: maximal runs of non-equal edits
as `(start, end)` index pairs into the edit list. -/
def findRangesAux : List Edit → Nat → List (Nat × Nat)
  | [], _ => []
  | e :: rest, pos =>
    if e.kind == .equal then findRangesAux rest (pos + 1)
    else
      let n := neRunLen rest + 1
      (pos, pos + n) :: findRangesAux (rest.drop (neRunLen rest)) (pos + n)
termination_by l _ => l.length
decreasing_by
  all_goals simp
  · omega

/-- The hunk-merging inner loop of `groupEdits`: absorb following ranges
whose context-expanded start does not pass the current hunk end. -/
def absorbRanges (context eLen : Nat) : List (Nat × Nat) → Nat → Nat × List (Nat × Nat)
  | [], hEnd => (hEnd, [])
  | r :: rest, hEnd =>
    if r.1 - context ≤ hEnd then absorbRanges context eLen rest (min (r.2 + context) eLen)
    else (hEnd, r :: rest)

/-- `ensureNewline`: appends a newline when the buffer is non-empty and does
not already end with one. -/
def ensureNewline (s : String) : String :=
  match s.toList.getLast? with
  | some c => if c ≠ '\n' then s ++ "\n" else s
  | none => s

/-- The body-rendering loop of a hunk: space/minus/plus prefixed lines, with
the `aCount`/`bCount` tallies. -/
def hunkBody (aLines bLines : List String) : List Edit → String → Nat → Nat → String × Nat × Nat
  | [], body, aCount, bCount => (body, aCount, bCount)
  | e :: rest, body, aCount, bCount =>
    match e.kind with
    | .equal =>
      hunkBody aLines bLines rest
        (ensureNewline (body ++ " " ++ aLines.getD e.aLine.toNat "")) (aCount + 1) (bCount + 1)
    | .delete =>
      hunkBody aLines bLines rest
        (ensureNewline (body ++ "-" ++ aLines.getD e.aLine.toNat "")) (aCount + 1) bCount
    | .insert =>
      hunkBody aLines bLines rest
        (ensureNewline (body ++ "+" ++ bLines.getD e.bLine.toNat "")) aCount (bCount + 1)

/-- Auxiliary bound for `emitHunks` termination: `absorbRanges` returns a
suffix of its input range list. -/
theorem absorbRanges_length_le (context eLen : Nat) :
    ∀ (l : List (Nat × Nat)) (hEnd : Nat),
      (absorbRanges context eLen l hEnd).2.length ≤ l.length := by
  intro l
  induction l with
  | nil => intro hEnd; simp [absorbRanges]
  | cons r rest ih =>
    intro hEnd
    simp only [absorbRanges]
    split
    · exact Nat.le_succ_of_le (ih _)
    · simp

/-- The hunk-emission loop of `groupEdits`: context expansion, merging of
overlapping ranges, line-number headers, and hunk bodies. -/
def emitHunks (edits : List Edit) (aLines bLines : List String) (context : Nat) :
    List (Nat × Nat) → List String
  | [] => []
  | r :: rest =>
    let hStart := r.1 - context
    let hEnd0 := min (r.2 + context) edits.length
    let merged := absorbRanges context edits.length rest hEnd0
    let hEnd := merged.1
    let pre := edits.take hStart
    let aStart := if hStart < edits.length then pre.countP (fun e => !(e.kind == .insert)) else 0
    let bStart := if hStart < edits.length then pre.countP (fun e => !(e.kind == .delete)) else 0
    let window := (edits.drop hStart).take (hEnd - hStart)
    let rendered := hunkBody aLines bLines window "" 0 0
    let header := "@@ -" ++ toString (aStart + 1) ++ "," ++ toString rendered.2.1 ++
      " +" ++ toString (bStart + 1) ++ "," ++ toString rendered.2.2 ++ " @@\n"
    (header ++ rendered.1) :: emitHunks edits aLines bLines context merged.2
termination_by l => l.length
decreasing_by
  simp only [List.length_cons]
  exact Nat.lt_succ_of_le (absorbRanges_length_le _ _ _ _)

/-- `groupEdits`: unified-diff hunks with `context` equal lines around each
non-equal run. -/
def groupEdits (edits : List Edit) (aLines bLines : List String) (context : Nat) : List String :=
  let ranges := findRangesAux edits 0
  if ranges = [] then [] else emitHunks edits aLines bLines context ranges

/-- `unifiedDiff`: unified diff between two texts; empty when the inputs are
identical, otherwise the `---`/`+++` header followed by the hunks. -/
def unifiedDiff (aName bName a b : String) : String :=
  if a == b then "" else
  let aLines := splitLines a
  let bLines := splitLines b
  let edits := computeEdits aLines bLines
  "--- " ++ aName ++ "\n" ++ "+++ " ++ bName ++ "\n" ++
    strJoin (groupEdits edits aLines bLines 3)

/-! ## Parsed HCL data model (`hclsyntax` interface consumed by the sorter) -/

/-- A source position (1-indexed line and column, as in HCL ranges). -/
structure SrcPos where
  line : Nat := 0
  column : Nat := 0
deriving Repr, DecidableEq

/-- A source range; `stop` models the Go field `End`. -/
structure SrcRange where
  filename : String := ""
  start : SrcPos := {}
  stop : SrcPos := {}
deriving Repr, DecidableEq

/-- An attribute: its name and the source range of the whole attribute
(`attribute.Range()`). -/
structure Attr where
  name : String
  range : SrcRange := {}
deriving Repr, DecidableEq

/-- A parsed block: type, labels, body attributes (in map-iteration order),
body child blocks (in source order) and the range of its type keyword. -/
inductive Block : Type where
  | mk : String → List String → List Attr → List Block → SrcRange → Block

/-- The block's type name. -/
def Block.type : Block → String
  | .mk t _ _ _ _ => t

/-- The block's labels. -/
def Block.labels : Block → List String
  | .mk _ ls _ _ _ => ls

/-- The block body's attributes, in map-iteration order. -/
def Block.attributes : Block → List Attr
  | .mk _ _ attrs _ _ => attrs

/-- The block body's child blocks, in source order. -/
def Block.blocks : Block → List Block
  | .mk _ _ _ bs _ => bs

/-- The range of the block's type keyword. -/
def Block.typeRange : Block → SrcRange
  | .mk _ _ _ _ r => r

/-- A parsed file body: top-level attributes and blocks. -/
structure Body where
  attributes : List Attr := []
  blocks : List Block := []

/-- Go map lookup `block.Body.Attributes[key]`. -/
def findAttr : List Attr → String → Option Attr
  | [], _ => none
  | a :: rest, key => if a.name == key then some a else findAttr rest key

/-- Go `strings.Join(labels, " ")`. -/
def joinSpace : List String → String
  | [] => ""
  | [x] => x
  | x :: rest => x ++ " " ++ joinSpace rest

/-- `formatBlockKey`: `type label1 label2 ...`, or just the type when there
are no labels. -/
def formatBlockKey (b : Block) : String :=
  if b.labels.length > 0 then b.type ++ " " ++ joinSpace b.labels
  else b.type

/-! ## Meta-argument table (`terraform.go`) -/

/-- The static `metaArguments` table: per block type, the pre list and the
post list. -/
def metaArguments : List (String × (List String × List String)) :=
  [("check", (["data"], [])),
   ("data", (["count", "for_each", "provider"], ["provisioner", "depends_on"])),
   ("dynamic", (["for_each"], [])),
   ("import", (["provider"], [])),
   ("local", ([], [])),
   ("module", (["source", "version", "providers", "count", "for_each"], ["depends_on"])),
   ("resource", (["count", "for_each", "provider"],
     ["provisioner", "lifecycle", "depends_on", "triggers_replace"])),
   ("terraform", (["required_version", "required_providers"], [])),
   ("variable", (["description", "type", "default", "nullable", "sensitive"], ["validation"])),
   ("default", ([], []))]

/-- `getMetaArguments`: the pre/post lists for the block's type, falling
back to the `default` entry for each empty component. -/
def getMetaArguments (b : Block) : List String × List String :=
  let metaArgs := match lookupStr metaArguments b.type with
    | some entry => entry
    | none => ([], [])
  let dflt := (lookupStr metaArguments "default").getD ([], [])
  let pre := if metaArgs.1.length = 0 then dflt.1 else metaArgs.1
  let post := if metaArgs.2.length = 0 then dflt.2 else metaArgs.2
  (pre, post)

/-! ## Key grouping and sorting (`getSortedBlockKeys`) -/

/-- The comparator passed to `sort.SliceStable` for the pre-meta group: scan
the canonical pre list; the first hit on `key1` means less, the first hit on
`key2` means not-less; when neither key appears, not-less. -/
def preMetaCompare (preArgs : List String) (key1 key2 : String) : Bool :=
  match preArgs with
  | [] => false
  | arg :: rest =>
    if arg == key1 then true
    else if arg == key2 then false
    else preMetaCompare rest key1 key2

/-- Stable insertion for `stableSort`: a later element passes every earlier
element that is strictly less than it, so equal elements keep their
original relative order. -/
def stableInsert {α : Type} (less : α → α → Bool) (x : α) : List α → List α
  | [] => [x]
  | y :: ys => if less y x then y :: stableInsert less x ys else x :: y :: ys

/-- Stable sort by a `less` predicate, modelling Go `sort.SliceStable` and
`sort.Stable` (and `sort.Strings`, where equal keys are identical strings,
so stability is immaterial). -/
def stableSort {α : Type} (less : α → α → Bool) : List α → List α
  | [] => []
  | x :: xs => stableInsert less x (stableSort less xs)

/-- Lexicographic character-list comparison (Go's `<` on strings, per code
point). -/
def charListLess : List Char → List Char → Bool
  | [], [] => false
  | [], _ :: _ => true
  | _ :: _, [] => false
  | c :: cs, d :: ds =>
    if c.toNat < d.toNat then true
    else if d.toNat < c.toNat then false
    else charListLess cs ds

/-- Boolean string comparison for `sort.Strings` and the label/type
comparisons of `BlockListSorter.Less`. -/
def lessString (a b : String) : Bool :=
  charListLess a.toList b.toList

/-- The attribute-categorization loop of `getSortedBlockKeys`: names in the
pre list to group 0, names in the post list to group 2, the rest to
group 1, preserving iteration order. -/
def categorizeAttrs (pre post : List String) : List Attr → List String × List String × List String
  | [] => ([], [], [])
  | a :: rest =>
    let r := categorizeAttrs pre post rest
    if stringExists pre a.name then (a.name :: r.1, r.2.1, r.2.2)
    else if stringExists post a.name then (r.1, r.2.1, a.name :: r.2.2)
    else (r.1, a.name :: r.2.1, r.2.2)

/-- The child-block categorization loop of `getSortedBlockKeys`: formatted
keys routed by the child's type, preserving sibling order. -/
def categorizeBlocks (pre post : List String) : List Block → List String × List String × List String
  | [] => ([], [], [])
  | b :: rest =>
    let r := categorizeBlocks pre post rest
    if stringExists pre b.type then (formatBlockKey b :: r.1, r.2.1, r.2.2)
    else if stringExists post b.type then (r.1, r.2.1, formatBlockKey b :: r.2.2)
    else (r.1, formatBlockKey b :: r.2.1, r.2.2)

/-- `getSortedBlockKeys` as a triple (pre-meta group, normal group,
post-meta group): categorize attributes then child blocks, stably sort the
pre group by `preMetaCompare` over the canonical list, and sort the other
two groups alphabetically. -/
def getSortedBlockKeysT (b : Block) : List String × List String × List String :=
  let meta := getMetaArguments b
  let ca := categorizeAttrs meta.1 meta.2 b.attributes
  let cb := categorizeBlocks meta.1 meta.2 b.blocks
  let k0 := ca.1 ++ cb.1
  let k1 := ca.2.1 ++ cb.2.1
  let k2 := ca.2.2 ++ cb.2.2
  let k0 := if k0.length > 0 then stableSort (preMetaCompare meta.1) k0 else k0
  (k0, stableSort lessString k1, stableSort lessString k2)

/-- `getSortedBlockKeys` with the source's `map[int][]string` interface:
group 0 is pre-meta, 1 normal, 2 post-meta. -/
def getSortedBlockKeys (b : Block) (i : Nat) : List String :=
  match i with
  | 0 => (getSortedBlockKeysT b).1
  | 1 => (getSortedBlockKeysT b).2.1
  | 2 => (getSortedBlockKeysT b).2.2
  | _ => []

/-! ## Rendering (`getSortedBlockBytes` and friends) -/

/-- `addNewLineIfBufferExists`: append a newline to a non-empty buffer. -/
def addNewLineIfBufferExists (buffer : String) : String :=
  if buffer.toList.length > 0 then buffer ++ "\n" else buffer

/-- `getPathFromBlock` (`filepath.Abs` modelled as the identity). -/
def getPathFromBlock (b : Block) : String :=
  b.typeRange.filename

/-- `getLineSlice`: slice one line of a node by 1-indexed columns, removing
or truncating comments when configured. -/
def Sorter.getLineSlice (s : Sorter) (line : String)
    (startLine endLine currentLine startCol endCol : Nat) : String :=
  let line := if currentLine == startLine then String.mk (line.toList.drop (startCol - 1)) else line
  if s.params.removeComments then
    if isStartOfComment line then ""
    else if currentLine == endLine then
      if startLine == endLine then String.mk (line.toList.take (endCol - startCol))
      else String.mk (line.toList.take (endCol - 1))
    else line
  else line

/-- The `for i := startLine; i <= endLine; i++` loop of `readNodeFromFile`,
with `remaining` counting the iterations left. -/
def nodeLinesLoop (s : Sorter) (lines : List String)
    (startLine endLine startCol endCol : Nat) : Nat → Nat → List String
  | 0, _ => []
  | remaining + 1, i =>
    let line := lines.getD i ""
    let lineSlice := s.getLineSlice line startLine endLine i startCol endCol
    (if lineSlice.toList.length > 0 then [lineSlice] else []) ++
      nodeLinesLoop s lines startLine endLine startCol endCol remaining (i + 1)

/-- `readNodeFromFile`: the node's leading comment (unless comments are
being removed) followed by the column-exact slices of its source lines. -/
def Sorter.readNodeFromFile (s : Sorter) (filename : String)
    (startLine startCol endLine endCol : Nat) : Except String (List String) :=
  let startLine := startLine - 1
  let endLine := endLine - 1
  match s.getLinesFromFile filename with
  | .error e => .error e
  | .ok lines =>
    let output :=
      if !s.params.removeComments then s.getNodeComment lines startLine filename
      else []
    .ok (output ++ nodeLinesLoop s lines startLine endLine startCol endCol
      (endLine + 1 - startLine) startLine)

/-- `getAttributeBytes`: the attribute's source text (with its comment),
newline-terminated. -/
def Sorter.getAttributeBytes (s : Sorter) (attrNode : Attr) (path : String) :
    Except String String :=
  match s.readNodeFromFile path attrNode.range.start.line attrNode.range.start.column
      attrNode.range.stop.line attrNode.range.stop.column with
  | .error e => .error e
  | .ok content => .ok (joinNL content ++ "\n")

/-- `getBlockOpeningBytes`: the block's leading comment (unless comments are
removed), its type, its quoted labels and the opening brace. -/
def Sorter.getBlockOpeningBytes (s : Sorter) (b : Block) : Except String String :=
  let commentPart : Except String String :=
    if !s.params.removeComments then
      match s.getLinesFromFile b.typeRange.filename with
      | .error e => .error e
      | .ok lines =>
        let startLine := b.typeRange.start.line - 1
        let nodeComment := s.getNodeComment lines startLine b.typeRange.filename
        if nodeComment.length > 0 then .ok (joinNL nodeComment ++ "\n") else .ok ""
    else .ok ""
  match commentPart with
  | .error e => .error e
  | .ok output =>
    .ok (output ++ b.type ++ strJoin (b.labels.map (fun label => "  \"" ++ label ++ "\"")) ++ " \x7b\n")

/-- `getBlockClosingBytes`. -/
def getBlockClosingBytes (_b : Block) : String :=
  "\x7d\n"

/-- The pre-grouped child-block map of `getBlockBodyBytes`
(`childBlocksByKey`): the Go code buckets `block.Body.Blocks` by formatted
key in sibling order, so the bucket for `key` is the order-preserving
filter. -/
def childBlocksByKey (blocks : List Block) (key : String) : List Block :=
  blocks.filter (fun c => formatBlockKey c == key)

/-- The key-consumption loop of `getBlockBodyBytes`, instrumented: the
result carries both the rendered bytes and (as a ghost trace) the list of
child blocks consumed, in consumption order. `pairs` carries each child of
the parent together with its own (recursively computed) rendering; `total`
is `len(keys)`, `i` the loop index, `idx` the `childBlockIndex` map, and
`output`/`buffer` the two byte accumulators of the source. -/
def bodyCore (s : Sorter) (attrs : List Attr)
    (pairs : List (Block × Except String (String × List Block)))
    (path : String) (total : Nat) :
    List String → Nat → List (String × Nat) → String → String →
      Except String (String × List Block)
  | [], _, _, output, buffer =>
    .ok ((if buffer.toList.length > 0 then output ++ buffer else output), [])
  | key :: rest, i, idx, output, buffer =>
    match findAttr attrs key with
    | some attrNode =>
      match s.getAttributeBytes attrNode path with
      | .error e => .error e
      | .ok b => bodyCore s attrs pairs path total rest (i + 1) idx output (buffer ++ b)
    | none =>
      let bucket := pairs.filter (fun pr => formatBlockKey pr.1 == key)
      let j := (lookupStr idx key).getD 0
      match bucket.get? j with
      | some pr =>
        match pr.2 with
        | .error e => .error e
        | .ok childRes =>
          let buffer := addNewLineIfBufferExists buffer ++ childRes.1
          let buffer := if i < total - 1 then buffer ++ "\n" else buffer
          match bodyCore s attrs pairs path total rest (i + 1) (insertStr idx key (j + 1))
              (output ++ buffer) "" with
          | .error e => .error e
          | .ok r => .ok (r.1, pr.1 :: r.2)
      | none => bodyCore s attrs pairs path total rest (i + 1) idx output buffer

/-- The `for i := 0; i < 3; i++` group loop of `getSortedBlockBytes`: each
non-empty key group contributes its body bytes, separated by a blank line;
the ghost traces of the groups are concatenated. -/
def groupsLoop (s : Sorter) (attrs : List Attr)
    (pairs : List (Block × Except String (String × List Block))) (path : String) :
    List (List String) → String → List Block → Except String (String × List Block)
  | [], buffer, trace => .ok (buffer, trace)
  | ks :: rest, buffer, trace =>
    if ks.length > 0 then
      match bodyCore s attrs pairs path ks.length ks 0 [] "" "" with
      | .error e => .error e
      | .ok r => groupsLoop s attrs pairs path rest (addNewLineIfBufferExists buffer ++ r.1) (trace ++ r.2)
    else groupsLoop s attrs pairs path rest buffer trace

/-- Assembly of one block's serialization from its opening, its three key
groups and its closing, given the pre-computed renderings of its children. -/
def assembleBlock (s : Sorter) (b : Block)
    (pairs : List (Block × Except String (String × List Block))) :
    Except String (String × List Block) :=
  let keys := getSortedBlockKeysT b
  match s.getBlockOpeningBytes b with
  | .error e => .error e
  | .ok results =>
    let path := getPathFromBlock b
    match groupsLoop s b.attributes pairs path [keys.1, keys.2.1, keys.2.2] "" [] with
    | .error e => .error e
    | .ok r => .ok (results ++ r.1 ++ getBlockClosingBytes b, r.2)

mutual
/-- `getSortedBlockBytes`, instrumented with a ghost trace: recursively
serialize a block; the trace lists which direct children were consumed (in
order), each of which contributed its own recursive serialization. -/
def getSortedBlockBytesT (s : Sorter) : Block → Except String (String × List Block)
  | .mk ty ls attrs blocks rng =>
    assembleBlock s (.mk ty ls attrs blocks rng) (renderChildrenPairs s blocks)

/-- Each child paired with its own recursive serialization (the rendering
`getBlockBodyBytes` performs on demand, precomputed; unconsumed renderings
are never inspected, so eagerness is immaterial). -/
def renderChildrenPairs (s : Sorter) : List Block → List (Block × Except String (String × List Block))
  | [] => []
  | c :: rest => (c, getSortedBlockBytesT s c) :: renderChildrenPairs s rest
end

/-- `getSortedBlockBytes`: the serialized bytes of a block (trace
projection of `getSortedBlockBytesT`). -/
def Sorter.getSortedBlockBytes (s : Sorter) (b : Block) : Except String String :=
  (getSortedBlockBytesT s b).map (·.1)

/-- `getBlockBodyBytes`: the bytes of one key group of a block's body
(trace projection of `bodyCore` over the block's own attributes and
children). -/
def Sorter.getBlockBodyBytes (s : Sorter) (b : Block) (keys : List String) :
    Except String String :=
  (bodyCore s b.attributes (renderChildrenPairs s b.blocks) (getPathFromBlock b)
    keys.length keys 0 [] "" "").map (·.1)

/-! ## Block-list ordering and `sortBlocks`/`sortBody` -/

/-- Modelled from the spec: `getBlockTypePriority` is called by
`BlockListSorter.Less` but its definition is not among the provided source
files; the logical priority order is taken from the spec and the `Params`
doc comment (terraform → variable → locals → data → resource → module →
moved → removed → check → output, with import before moved), with unlisted
types after all
listed ones. -/
def blockTypePriorityList : List String :=
  ["terraform", "variable", "locals", "data", "resource", "module",
   "import", "moved", "removed", "check", "output"]

/-- Index scan for `getBlockTypePriority`. -/
def idxOfAux : List String → String → Nat → Nat
  | [], _, n => n
  | x :: rest, t, n => if x == t then n else idxOfAux rest t (n + 1)

/-- Modelled from the spec: the priority rank of a block type (see
`blockTypePriorityList`). -/
def getBlockTypePriority (t : String) : Nat :=
  idxOfAux blockTypePriorityList t 0

/-- The label-comparison loop of `BlockListSorter.Less`: first differing
label decides; otherwise, fewer labels first. -/
def labelsLess : List String → List String → Bool
  | [], [] => false
  | [], _ :: _ => true
  | _ :: _, [] => false
  | x :: xs, y :: ys => if x != y then lessString x y else labelsLess xs ys

/-- `BlockListSorter.Less`: type priority (or alphabetical type name),
then labels. -/
def blockListLess (sortByType : Bool) (b1 b2 : Block) : Bool :=
  if b1.type != b2.type then
    if sortByType then decide (getBlockTypePriority b1.type < getBlockTypePriority b2.type)
    else lessString b1.type b2.type
  else labelsLess b1.labels b2.labels

/-- The block loop of `sortBlocks`: render each block in sorted order and
append it (blank-line separated) to its routed output key. -/
def sortBlocksLoop (s : Sorter) : List Block → List (String × String) →
    Except String (List (String × String))
  | [], output => .ok output
  | b :: rest, output =>
    match s.getSortedBlockBytes b with
    | .error e => .error e
    | .ok blockBytes =>
      let outputKey := routeOutputKey s.params b.type b.typeRange.filename
      sortBlocksLoop s rest
        (insertStr output outputKey
          (addNewLineIfBufferExists ((lookupStr output outputKey).getD "") ++ blockBytes))

/-- `sortBlocks`: stable-sort the block list with `BlockListSorter`, then
render each block into its routed output key. -/
def Sorter.sortBlocks (s : Sorter) (blocks : List Block) :
    Except String (List (String × String)) :=
  sortBlocksLoop s (stableSort (blockListLess (!s.params.noSortByType)) blocks) []

/-- The per-output-key loop of `sortBody`: optionally re-add the header,
format, and re-parse the formatted buffer, failing on any re-parse error.
`format` models `hclwrite.Format` and `parse` models `hclParseFn` composed
with `diag.HasErrors` (true = parses cleanly); both are external
collaborators injected as parameters. -/
def sortBodyLoop (s : Sorter) (format : String → String) (parse : String → String → Bool)
    (inputFilename : String) : List (String × String) → List (String × String) →
      Except String (List (String × String))
  | [], output => .ok output
  | (k, v) :: rest, output =>
    let buffer := if s.params.keepHeader then s.addHeader v inputFilename else v
    let formatted := format buffer
    if !(parse formatted k) then
      .error ("sorted output for " ++ k ++ " is not valid HCL")
    else sortBodyLoop s format parse inputFilename rest (insertStr output k formatted)

/-- `sortBody`: sort a body's blocks, then for every output key re-add the
header when configured, format, and validate that the formatted output
still parses, surfacing any re-parse failure as an error. -/
def Sorter.sortBody (s : Sorter) (format : String → String)
    (parse : String → String → Bool) (body : Body) (inputFilename : String) :
    Except String (List (String × String)) :=
  match s.sortBlocks body.blocks with
  | .error e => .error e
  | .ok sortedFileBytes => sortBodyLoop s format parse inputFilename sortedFileBytes []

/-! ## Helper lemmas -/

/-- Lookup after insert at the same key yields the inserted value. -/
theorem lookupStr_insertStr_self {α : Type} (m : List (String × α)) (k : String) (v : α) :
    lookupStr (insertStr m k v) k = some v := by
  induction m with
  | nil => simp [insertStr, lookupStr]
  | cons p rest ih =>
    obtain ⟨k', w⟩ := p
    by_cases h : k' == k
    · simp [insertStr, lookupStr, h]
    · simp only [insertStr, lookupStr, h, if_false, Bool.false_eq_true]
      exact ih

/-- Membership after a map write: an entry of `insertStr m k v` is an entry
of `m` or the written binding. -/
theorem mem_insertStr {α : Type} (m : List (String × α)) (k : String) (v : α)
    (a : String) (b : α) (h : (a, b) ∈ insertStr m k v) :
    (a, b) ∈ m ∨ (a = k ∧ b = v) := by
  induction m with
  | nil =>
    simp [insertStr] at h
    exact Or.inr ⟨h.1, h.2⟩
  | cons p rest ih =>
    obtain ⟨k', w⟩ := p
    by_cases he : k' == k
    · simp only [insertStr, he, if_true] at h
      rcases List.mem_cons.mp h with h1 | h2
      · have hk : k' = k := by simpa using he
        rw [Prod.mk.injEq] at h1
        exact Or.inr ⟨h1.1.trans hk, h1.2⟩
      · exact Or.inl (List.mem_cons_of_mem _ h2)
    · simp only [insertStr, he, Bool.false_eq_true, if_false] at h
      rcases List.mem_cons.mp h with h1 | h2
      · exact Or.inl (List.mem_cons.mpr (Or.inl h1))
      · rcases ih h2 with h3 | h3
        · exact Or.inl (List.mem_cons_of_mem _ h3)
        · exact Or.inr h3

/-! ## Theorems for claims C2 and C4 -/

/-- C2: the pre-meta comparator of `getSortedBlockKeys` returns false
("not less") for every pair of keys of which neither appears in the block
type's canonical pre list, so the stable sort leaves unmatched pre-meta
keys in their original relative order; it never returns true in that
branch. -/
theorem pre_meta_comparator_fallback_false (preArgs : List String) (key1 key2 : String)
    (h1 : stringExists preArgs key1 = false) (h2 : stringExists preArgs key2 = false) :
    preMetaCompare preArgs key1 key2 = false := by
  induction preArgs with
  | nil => rfl
  | cons arg rest ih =>
    unfold stringExists at h1 h2
    unfold preMetaCompare
    by_cases e1 : arg == key1
    · simp [e1] at h1
    · by_cases e2 : arg == key2
      · simp [e2] at h2
      · simp only [e1, e2, Bool.false_eq_true, if_false]
        exact ih (by simpa [e1] using h1) (by simpa [e2] using h2)

/-- C2 witness: two keys absent from a concrete pre list compare as
not-less. -/
theorem pre_meta_comparator_fallback_false_witness :
    stringExists ["count", "for_each", "provider"] "alpha" = false ∧
    stringExists ["count", "for_each", "provider"] "beta" = false ∧
    preMetaCompare ["count", "for_each", "provider"] "alpha" "beta" = false :=
  ⟨by decide, by decide,
    pre_meta_comparator_fallback_false ["count", "for_each", "provider"] "alpha" "beta"
      (by decide) (by decide)⟩

/-- Invariant propagation through the per-output-key loop of `sortBody`:
every binding of a successful result passed the re-parse gate. -/
theorem sortBodyLoop_gate (s : Sorter) (format : String → String)
    (parse : String → String → Bool) (fn : String) :
    ∀ (items acc out : List (String × String)),
      sortBodyLoop s format parse fn items acc = .ok out →
      (∀ k v, (k, v) ∈ acc → parse v k = true) →
      ∀ k v, (k, v) ∈ out → parse v k = true := by
  intro items
  induction items with
  | nil =>
    intro acc out hloop hacc k v hm
    unfold sortBodyLoop at hloop
    cases hloop
    exact hacc k v hm
  | cons kv rest ih =>
    intro acc out hloop hacc k v hm
    obtain ⟨k0, v0⟩ := kv
    unfold sortBodyLoop at hloop
    by_cases hc :
        parse (format (if s.params.keepHeader = true then s.addHeader v0 fn else v0)) k0 = true
    · simp only [hc, Bool.not_true, Bool.false_eq_true, if_false] at hloop
      refine ih _ _ hloop ?_ k v hm
      intro k' v' hm'
      rcases mem_insertStr _ _ _ _ _ hm' with h1 | h2
      · exact hacc k' v' h1
      · rw [h2.1, h2.2]
        exact hc
    · have hc' :
          parse (format (if s.params.keepHeader = true then s.addHeader v0 fn else v0)) k0
            = false := by
        simpa using hc
      simp only [hc', Bool.not_false, if_true] at hloop
      cases hloop

/-- C4: whenever `sortBody` succeeds, every output buffer it returns passed
the re-parse gate — the serializer re-parses each formatted buffer and
surfaces any re-parse failure as an error instead of returning invalid
output, so all emitted output is syntactically valid by the injected
parser. -/
theorem sortBody_reparse_gate (s : Sorter) (format : String → String)
    (parse : String → String → Bool) (body : Body) (fn : String)
    (out : List (String × String)) (h : s.sortBody format parse body fn = .ok out) :
    ∀ k v, (k, v) ∈ out → parse v k = true := by
  unfold Sorter.sortBody at h
  cases hsb : s.sortBlocks body.blocks with
  | error e => rw [hsb] at h; cases h
  | ok sortedFileBytes =>
    rw [hsb] at h
    exact sortBodyLoop_gate s format parse fn sortedFileBytes [] out h (by intro k v hm; cases hm)

/-- C4 witness: a one-block body sorted under a parser model that accepts
exactly non-empty buffers; the single emitted buffer passes the gate. -/
theorem sortBody_reparse_gate_witness :
    Sorter.sortBody
      { params := { removeComments := true }, fs := fun _ => none,
        linesCache := [], detectedHeaders := [] }
      id (fun c _ => c != "")
      { blocks := [Block.mk "a" [] [] []
        { filename := "main.tf", start := { line := 1, column := 1 },
          stop := { line := 1, column := 5 } }] }
      "main.tf" = .ok [("main.tf", "a \x7b\n\x7d\n")] ∧
    (fun (c : String) (_ : String) => c != "") "a \x7b\n\x7d\n" "main.tf" = true :=
  ⟨rfl,
    sortBody_reparse_gate
      { params := { removeComments := true }, fs := fun _ => none,
        linesCache := [], detectedHeaders := [] }
      id (fun c _ => c != "")
      { blocks := [Block.mk "a" [] [] []
        { filename := "main.tf", start := { line := 1, column := 1 },
          stop := { line := 1, column := 5 } }] }
      "main.tf" [("main.tf", "a \x7b\n\x7d\n")] rfl "main.tf" "a \x7b\n\x7d\n" (by simp)⟩

/-! ## Theorems for claims C5 and C6 -/

/-- Spec-side comparison definition for claim C6: what the spec describes —
trimming a single trailing newline from the configured pattern. The code
(`findHeaderInLines`) instead trims every trailing newline; this definition
exists only to state the divergence. -/
def specTrimSingleTrailingNewline (s : String) : String :=
  if strHasSuf s "\n" then String.mk s.toList.dropLast else s

/-- C6 counterexample: with pattern `"X\n\n"`, the detector accepts the
captured header `"# X"` even though that text does not contain the pattern
after a single trailing newline is trimmed (`"X\n"`), because the code trims
all trailing newlines (down to `"X"`). -/
theorem header_pattern_trim_counterexample :
    findHeaderInLines { hasHeader := true, headerPattern := "X\n\n" } ["# X"] = "# X" ∧
    strContains "# X" (specTrimSingleTrailingNewline "X\n\n") = false := by
  exact ⟨by decide, by decide⟩

/-- C6 (amended): the header detector accepts a captured leading comment
region only if it contains the configured pattern after all trailing
newlines are trimmed from the pattern; when that trimmed pattern is
non-empty and not contained, detection returns none (the empty header). -/
theorem header_accept_contains_trimmed (p : Params) (lines : List String)
    (h : findHeaderInLines p lines ≠ "") :
    trimTrailingNewlines p.headerPattern = "" ∨
      strContains (findHeaderInLines p lines) (trimTrailingNewlines p.headerPattern) = true := by
  unfold findHeaderInLines at h ⊢
  by_cases he : (findHeaderScan p lines [] false).isEmpty
  · simp [he] at h
  · simp only [he, Bool.false_eq_true, if_false] at h ⊢
    by_cases hp : trimTrailingNewlines p.headerPattern = ""
    · exact Or.inl hp
    · right
      by_cases hc : strContains (joinNL (findHeaderScan p lines [] false))
          (trimTrailingNewlines p.headerPattern) = true
      · have hcond : (trimTrailingNewlines p.headerPattern != "" &&
            !(strContains (joinNL (findHeaderScan p lines [] false))
              (trimTrailingNewlines p.headerPattern))) = false := by
          simp [hc]
        simp [hcond, hc]
      · exfalso
        apply h
        have hcond : (trimTrailingNewlines p.headerPattern != "" &&
            !(strContains (joinNL (findHeaderScan p lines [] false))
              (trimTrailingNewlines p.headerPattern))) = true := by
          simp [hp, hc]
        simp [hcond]

/-- C6 witness: a concrete accepted header whose pattern has one trailing
newline; the acceptance condition holds via the trimmed pattern. -/
theorem header_accept_contains_trimmed_witness :
    findHeaderInLines { headerPattern := "Copyright\n" } ["# Copyright 2020"] ≠ "" ∧
    (trimTrailingNewlines ("Copyright\n" : String) = "" ∨
      strContains (findHeaderInLines { headerPattern := "Copyright\n" } ["# Copyright 2020"])
        (trimTrailingNewlines "Copyright\n") = true) :=
  ⟨by decide, header_accept_contains_trimmed { headerPattern := "Copyright\n" }
    ["# Copyright 2020"] (by decide)⟩

/-- C5 counterexample: with keep-header set and no header detected for the
file, `addHeader` prepends the raw pattern followed by a single newline, not
by a blank line: the output does not start with pattern-plus-blank-line. -/
theorem keep_header_blank_line_counterexample :
    Sorter.addHeader
      { params := { hasHeader := true, keepHeader := true, headerPattern := "# h" },
        fs := fun _ => none, linesCache := [], detectedHeaders := [] }
      "a \x7b\n\x7d\n" "main.tf" = "# h\na \x7b\n\x7d\n" ∧
    strHasPref "# h\na \x7b\n\x7d\n" ("# h" ++ "\n\n") = false := by
  exact ⟨by decide, by decide⟩

/-- C5 (amended): after header detection runs for a file, the buffer that
`sortBody` hands to the formatter under keep-header starts with the
detected header text byte-for-byte followed by exactly one blank line when
a header was detected, and with the raw configured pattern followed by a
single newline (no blank line) when none was detected. -/
theorem addHeader_uses_detected_or_pattern (s : Sorter) (fn buffer : String)
    (lines : List String)
    (hlines : s.getLinesFromFile fn = .ok lines)
    (hfresh : lookupStr s.detectedHeaders fn = none)
    (s' : Sorter) (hdet : s.detectFileHeader fn = .ok s') :
    s'.addHeader buffer fn =
      if findHeaderInLines s.params lines = "" then s.params.headerPattern ++ "\n" ++ buffer
      else findHeaderInLines s.params lines ++ "\n\n" ++ buffer := by
  unfold Sorter.detectFileHeader at hdet
  rw [hlines] at hdet
  by_cases hh : findHeaderInLines s.params lines = ""
  · have hne : (findHeaderInLines s.params lines != "") = false := by simp [hh]
    simp only [hne, Bool.false_eq_true, if_false, Except.ok.injEq] at hdet
    subst hdet
    unfold Sorter.addHeader
    rw [hfresh]
    simp [hh]
  · have hne : (findHeaderInLines s.params lines != "") = true := by simp [hh]
    simp only [hne, if_true, Except.ok.injEq] at hdet
    subst hdet
    unfold Sorter.addHeader
    simp only [lookupStr_insertStr_self, Option.getD_some]
    rw [hne]
    simp [hh]

/-- C5 witness: a file whose `/** ... **/` banner matches only the partial
pattern `"Copyright"`; detection captures the whole banner and `addHeader`
reproduces it byte-for-byte followed by one blank line. -/
theorem addHeader_uses_detected_or_pattern_witness :
    Sorter.getLinesFromFile
      { params := { hasHeader := true, keepHeader := true, headerPattern := "Copyright" },
        fs := fun f => if f == "main.tf" then some "/**\n * Copyright 2024\n **/\n\na \x7b\n\x7d\n" else none,
        linesCache := [], detectedHeaders := [] } "main.tf" =
      .ok ["/**", " * Copyright 2024", " **/", "", "a \x7b", "\x7d"] ∧
    Sorter.detectFileHeader
      { params := { hasHeader := true, keepHeader := true, headerPattern := "Copyright" },
        fs := fun f => if f == "main.tf" then some "/**\n * Copyright 2024\n **/\n\na \x7b\n\x7d\n" else none,
        linesCache := [], detectedHeaders := [] } "main.tf" =
      .ok { params := { hasHeader := true, keepHeader := true, headerPattern := "Copyright" },
            fs := fun f => if f == "main.tf" then some "/**\n * Copyright 2024\n **/\n\na \x7b\n\x7d\n" else none,
            linesCache := [],
            detectedHeaders := [("main.tf", "/**\n * Copyright 2024\n **/")] } ∧
    Sorter.addHeader
      { params := { hasHeader := true, keepHeader := true, headerPattern := "Copyright" },
        fs := fun f => if f == "main.tf" then some "/**\n * Copyright 2024\n **/\n\na \x7b\n\x7d\n" else none,
        linesCache := [],
        detectedHeaders := [("main.tf", "/**\n * Copyright 2024\n **/")] } "body" "main.tf" =
      "/**\n * Copyright 2024\n **/" ++ "\n\n" ++ "body" := by
  refine ⟨rfl, rfl, ?_⟩
  have h := addHeader_uses_detected_or_pattern
    { params := { hasHeader := true, keepHeader := true, headerPattern := "Copyright" },
      fs := fun f => if f == "main.tf" then some "/**\n * Copyright 2024\n **/\n\na \x7b\n\x7d\n" else none,
      linesCache := [], detectedHeaders := [] }
    "main.tf" "body" ["/**", " * Copyright 2024", " **/", "", "a \x7b", "\x7d"] rfl rfl
    { params := { hasHeader := true, keepHeader := true, headerPattern := "Copyright" },
      fs := fun f => if f == "main.tf" then some "/**\n * Copyright 2024\n **/\n\na \x7b\n\x7d\n" else none,
      linesCache := [],
      detectedHeaders := [("main.tf", "/**\n * Copyright 2024\n **/")] } rfl
  rw [h]
  rfl

/-! ## Theorems for claims C7, C8, C9, C10 -/

/-- C8: the run orchestrator's up-front flag validation errors exactly on
the conflicting combinations — inline with group-by-type or an output
directory, keep-header without header detection and a non-empty pattern,
check with an output directory, diff with an output directory or inline —
and in particular accepts check combined with inline. -/
theorem run_flag_validation_exact :
    (∀ p : Params,
      (validateRunParams p).isSome = true ↔
        ((p.inline = true ∧ (p.groupByType = true ∨ p.outputDir ≠ "")) ∨
         (p.keepHeader = true ∧ (p.hasHeader = false ∨ p.headerPattern = "")) ∨
         (p.check = true ∧ p.outputDir ≠ "") ∨
         (p.diff = true ∧ (p.outputDir ≠ "" ∨ p.inline = true)))) ∧
    validateRunParams { check := true, inline := true } = none := by
  constructor
  · intro p
    unfold validateRunParams
    split_ifs with h1 h2 h3 h4 h5 <;> simp_all
  · rfl

/-- C9: the unified diff of two texts is the empty string exactly when the
two texts are byte-identical; any difference yields a non-empty diff. -/
theorem unifiedDiff_empty_iff (aName bName a b : String) :
    unifiedDiff aName bName a b = "" ↔ a = b := by
  constructor
  · intro he
    by_contra hne
    have hbeq : (a == b) = false := by
      simpa using hne
    unfold unifiedDiff at he
    rw [hbeq] at he
    simp only [Bool.false_eq_true, if_false] at he
    have hlen := congrArg String.length he
    simp [String.length_append] at hlen
    exact absurd hlen.1.1.1.1.1.1 (by decide)
  · intro he
    subst he
    simp [unifiedDiff]

/-- C10: `NewSorter` tolerates a nil `Params` pointer — for every
filesystem it substitutes the zero-value `Params` and produces exactly the
same `Sorter` state as `NewSorter` applied to an explicit zero-value
`Params`, so the public entry points accept nil settings. -/
theorem newSorter_nil_params (fs : FileSys) :
    NewSorter none fs = NewSorter (some {}) fs ∧ (NewSorter none fs).params = {} :=
  ⟨rfl, rfl⟩

/-- C7: evaluation of the grouped-mode output routing. The table routes
variable, output, data and terraform blocks to their canonical files and
moved/removed to the default aggregate, but — contrary to the claim, the
README's routing table and `TestGroupByTypeFileRouting` — `fileGroups` has
no entries for `check` and `import`, so those block types also fall through
to the default aggregate `main.tf` instead of `checks.tf`/`imports.tf`. -/
theorem grouped_routing_evaluation :
    routeOutputKey { groupByType := true } "variable" "/x/in.tf" = "variables.tf" ∧
    routeOutputKey { groupByType := true } "output" "/x/in.tf" = "outputs.tf" ∧
    routeOutputKey { groupByType := true } "data" "/x/in.tf" = "data.tf" ∧
    routeOutputKey { groupByType := true } "terraform" "/x/in.tf" = "versions.tf" ∧
    routeOutputKey { groupByType := true } "locals" "/x/in.tf" = "locals.tf" ∧
    routeOutputKey { groupByType := true } "moved" "/x/in.tf" = "main.tf" ∧
    routeOutputKey { groupByType := true } "removed" "/x/in.tf" = "main.tf" ∧
    routeOutputKey { groupByType := true } "check" "/x/in.tf" = "main.tf" ∧
    routeOutputKey { groupByType := true } "import" "/x/in.tf" = "main.tf" ∧
    lookupStr fileGroups "check" = none ∧
    lookupStr fileGroups "import" = none := by
  refine ⟨rfl, rfl, rfl, rfl, rfl, rfl, rfl, rfl, rfl, rfl, rfl⟩

/-- Stable insertion permutes: inserting is a permutation of consing. -/
theorem stableInsert_perm {α : Type} (less : α → α → Bool) (x : α) (l : List α) :
    (stableInsert less x l).Perm (x :: l) := by
  induction l with
  | nil => simp [stableInsert]
  | cons y ys ih =>
    unfold stableInsert
    split
    · exact ((ih.cons y).trans (List.Perm.swap x y ys))
    · exact List.Perm.refl _

/-- The stable sort is a permutation of its input. -/
theorem stableSort_perm {α : Type} (less : α → α → Bool) (l : List α) :
    (stableSort less l).Perm l := by
  induction l with
  | nil => simp [stableSort]
  | cons x xs ih =>
    exact (stableInsert_perm less x (stableSort less xs)).trans (ih.cons x)

/-- Stable sorting preserves counts. -/
theorem count_stableSort (less : String → String → Bool) (a : String) (l : List String) :
    List.count a (stableSort less l) = List.count a l :=
  (stableSort_perm less l).count_eq a

/-- Lookup after a write at a different key is unchanged. -/
theorem lookupStr_insertStr_ne {α : Type} (m : List (String × α)) (key k : String) (v : α)
    (h : key ≠ k) : lookupStr (insertStr m key v) k = lookupStr m k := by
  induction m with
  | nil =>
    have : (key == k) = false := by simpa using h
    simp [insertStr, lookupStr, this]
  | cons p rest ih =>
    obtain ⟨k', w⟩ := p
    by_cases he : k' == key
    · have hk : k' = key := by simpa using he
      subst hk
      have : (k' == k) = false := by simpa using h
      simp [insertStr, lookupStr, this]
    · simp only [insertStr, he, Bool.false_eq_true, if_false, lookupStr]
      split
      · rfl
      · exact ih

/-- Dropping to a present index peels that element. -/
theorem drop_cons_of_get? {α : Type} (l : List α) (j : Nat) (x : α)
    (h : l.get? j = some x) : l.drop j = x :: l.drop (j + 1) := by
  induction l generalizing j with
  | nil => simp [List.get?] at h
  | cons y ys ih =>
    cases j with
    | zero => simp_all [List.get?]
    | succ n =>
      simp only [List.get?] at h
      simpa [List.drop] using ih n h

/-- Dropping past the end yields the empty list. -/
theorem drop_nil_of_get?_none {α : Type} (l : List α) (j : Nat)
    (h : l.get? j = none) : l.drop j = [] := by
  have := List.get?_eq_none.mp h
  exact List.drop_eq_nil_of_le this



/-- The child-consumption invariant of `getBlockBodyBytes`: on success, the
children consumed with formatted key `k` (in order) are exactly the next
`count k keys` unconsumed members of the key-`k` bucket, starting at the
current `childBlockIndex` position — each occurrence of a duplicate key
consumes the next distinct sibling, never the first one twice. -/
theorem bodyCore_trace (s : Sorter) (attrs : List Attr)
    (pairs : List (Block × Except String (String × List Block))) (path : String)
    (k : String) (hattr : findAttr attrs k = none) :
    ∀ (keys : List String) (total i : Nat) (idx : List (String × Nat)) (output buffer : String)
      (res : String × List Block),
      bodyCore s attrs pairs path total keys i idx output buffer = .ok res →
      res.2.filter (fun c => formatBlockKey c == k) =
        (((pairs.filter (fun pr => formatBlockKey pr.1 == k)).map (·.1)).drop
          ((lookupStr idx k).getD 0)).take (List.count k keys) := by
  intro keys
  induction keys with
  | nil =>
    intro total i idx output buffer res hok
    unfold bodyCore at hok
    cases hok
    simp
  | cons key rest ih =>
    intro total i idx output buffer res hok
    unfold bodyCore at hok
    cases hfa : findAttr attrs key with
    | some attrNode =>
      simp only [hfa] at hok
      have hkne : key ≠ k := by
        intro he
        rw [he, hattr] at hfa
        cases hfa
      cases hab : s.getAttributeBytes attrNode path with
      | error e => simp only [hab] at hok; cases hok
      | ok bstr =>
        simp only [hab] at hok
        have := ih total (i + 1) idx output (buffer ++ bstr) res hok
        rw [this]
        have hcnt : List.count k (key :: rest) = List.count k rest := by
          simp [List.count_cons, hkne, Ne.symm hkne]
        rw [hcnt]
    | none =>
      simp only [hfa] at hok
      cases hget : (pairs.filter (fun pr => formatBlockKey pr.1 == key)).get?
          ((lookupStr idx key).getD 0) with
      | some pr =>
        simp only [hget] at hok
        cases hpr : pr.2 with
        | error e => simp only [hpr] at hok; cases hok
        | ok childRes =>
          simp only [hpr] at hok
          cases hrec : bodyCore s attrs pairs path total rest (i + 1)
              (insertStr idx key ((lookupStr idx key).getD 0 + 1))
              (output ++
                (if i < total - 1 then
                  addNewLineIfBufferExists buffer ++ childRes.1 ++ "\n"
                else addNewLineIfBufferExists buffer ++ childRes.1)) "" with
          | error e => simp only [hrec] at hok; cases hok
          | ok r =>
            simp only [hrec] at hok
            cases hok
            -- res = (r.1, pr.1 :: r.2)
            have hmem : pr ∈ pairs.filter (fun pr => formatBlockKey pr.1 == key) := by
              exact List.get?_mem hget
            have hprk : (formatBlockKey pr.1 == key) = true := (List.mem_filter.mp hmem).2
            by_cases hkk : key = k
            · subst hkk
              have hj := lookupStr_insertStr_self idx key ((lookupStr idx key).getD 0 + 1)
              have ihr := ih total (i + 1) (insertStr idx key ((lookupStr idx key).getD 0 + 1))
                (output ++
                  (if i < total - 1 then
                    addNewLineIfBufferExists buffer ++ childRes.1 ++ "\n"
                  else addNewLineIfBufferExists buffer ++ childRes.1)) "" r hrec
              rw [hj] at ihr
              simp only [Option.getD_some] at ihr
              have hbk : ((pairs.filter (fun pr => formatBlockKey pr.1 == key)).map (·.1)).get?
                  ((lookupStr idx key).getD 0) = some pr.1 := by
                rw [List.get?_map, hget]
                rfl
              have hdrop := drop_cons_of_get? _ _ _ hbk
              simp only [List.filter_cons, hprk, if_true, List.count_cons, beq_self_eq_true]
              rw [hdrop, ihr]
              simp [List.take_succ_cons]
            · have hkne' : (formatBlockKey pr.1 == k) = false := by
                have h1 : formatBlockKey pr.1 = key := by simpa using hprk
                simp [h1, hkk]
              have hj := lookupStr_insertStr_ne idx key k ((lookupStr idx key).getD 0 + 1) hkk
              have ihr := ih total (i + 1) (insertStr idx key ((lookupStr idx key).getD 0 + 1))
                (output ++
                  (if i < total - 1 then
                    addNewLineIfBufferExists buffer ++ childRes.1 ++ "\n"
                  else addNewLineIfBufferExists buffer ++ childRes.1)) "" r hrec
              rw [hj] at ihr
              simp only [List.filter_cons, hkne', Bool.false_eq_true, if_false]
              rw [ihr]
              have hcnt : List.count k (key :: rest) = List.count k rest := by
                simp [List.count_cons, hkk, Ne.symm hkk]
              rw [hcnt]
      | none =>
        simp only [hget] at hok
        have := ih total (i + 1) idx output buffer res hok
        rw [this]
        by_cases hkk : key = k
        · subst hkk
          have hbk : ((pairs.filter (fun pr => formatBlockKey pr.1 == key)).map (·.1)).get?
              ((lookupStr idx key).getD 0) = none := by
            rw [List.get?_map, hget]
            rfl
          have hdrop := drop_nil_of_get?_none _ _ hbk
          rw [hdrop]
          simp
        · have hcnt : List.count k (key :: rest) = List.count k rest := by
            simp [List.count_cons, hkk, Ne.symm hkk]
          rw [hcnt]



/-- Trace of the three-group loop of `getSortedBlockBytes`: each group
consumes a prefix of the key-`k` bucket of length equal to the number of
occurrences of `k` among that group's keys. -/
theorem groupsLoop_trace (s : Sorter) (attrs : List Attr)
    (pairs : List (Block × Except String (String × List Block))) (path : String)
    (k : String) (hattr : findAttr attrs k = none) :
    ∀ (groups : List (List String)) (buffer : String) (trace : List Block)
      (res : String × List Block),
      groupsLoop s attrs pairs path groups buffer trace = .ok res →
      res.2.filter (fun c => formatBlockKey c == k) =
        trace.filter (fun c => formatBlockKey c == k) ++
          (groups.map (fun g =>
            ((pairs.filter (fun pr => formatBlockKey pr.1 == k)).map (·.1)).take
              (List.count k g))).join := by
  intro groups
  induction groups with
  | nil =>
    intro buffer trace res hok
    unfold groupsLoop at hok
    cases hok
    simp
  | cons ks rest ih =>
    intro buffer trace res hok
    unfold groupsLoop at hok
    by_cases hlen : ks.length > 0
    · rw [if_pos hlen] at hok
      cases hbc : bodyCore s attrs pairs path ks.length ks 0 [] "" "" with
      | error e => simp only [hbc] at hok; cases hok
      | ok r =>
        simp only [hbc] at hok
        have ihr := ih (addNewLineIfBufferExists buffer ++ r.1) (trace ++ r.2) res hok
        have hb := bodyCore_trace s attrs pairs path k hattr ks ks.length 0 [] "" "" r hbc
        simp only [lookupStr, Option.getD_none, List.drop_zero] at hb
        rw [ihr, List.filter_append, hb]
        simp [List.append_assoc]
    · rw [if_neg hlen] at hok
      have ihr := ih buffer trace res hok
      have hks : ks = [] := by
        cases ks with
        | nil => rfl
        | cons a l => exact absurd (by simp) hlen
      subst hks
      simp only [List.count_nil, List.take_zero] at *
      rw [ihr]
      simp

/-- When no attribute is named `k`, the attribute categorization
contributes no occurrence of `k` to any key group. -/
theorem categorizeAttrs_count_zero (pre post : List String) (k : String) :
    ∀ (attrs : List Attr), findAttr attrs k = none →
      List.count k (categorizeAttrs pre post attrs).1 = 0 ∧
      List.count k (categorizeAttrs pre post attrs).2.1 = 0 ∧
      List.count k (categorizeAttrs pre post attrs).2.2 = 0 := by
  intro attrs
  induction attrs with
  | nil => intro _; simp [categorizeAttrs]
  | cons a rest ih =>
    intro hfa
    unfold findAttr at hfa
    have hne : (a.name == k) = false := by
      by_cases h : a.name == k
      · rw [if_pos h] at hfa; cases hfa
      · simpa using h
    rw [if_neg (by simp [hne])] at hfa
    obtain ⟨h0, h1, h2⟩ := ih hfa
    have hcne : List.count k (a.name :: (categorizeAttrs pre post rest).1) =
        List.count k (categorizeAttrs pre post rest).1 := by
      simp [List.count_cons, hne]
    unfold categorizeAttrs
    by_cases hp : stringExists pre a.name
    · simp only [hp, if_true]
      refine ⟨?_, h1, h2⟩
      simp [List.count_cons, hne, h0]
    · by_cases hq : stringExists post a.name
      · simp only [hp, Bool.false_eq_true, if_false, hq, if_true]
        refine ⟨h0, h1, ?_⟩
        simp [List.count_cons, hne, h2]
      · simp only [hp, hq, Bool.false_eq_true, if_false]
        refine ⟨h0, ?_, h2⟩
        simp [List.count_cons, hne, h1]



/-- The key-`k` bucket over the instrumented child pairs is exactly
`childBlocksByKey`. -/
theorem renderChildrenPairs_filter_map (s : Sorter) (k : String) :
    ∀ (blocks : List Block),
      ((renderChildrenPairs s blocks).filter (fun pr => formatBlockKey pr.1 == k)).map (·.1) =
        childBlocksByKey blocks k := by
  intro blocks
  induction blocks with
  | nil => simp [renderChildrenPairs, childBlocksByKey]
  | cons c rest ih =>
    unfold renderChildrenPairs childBlocksByKey
    unfold childBlocksByKey at ih
    by_cases hc : (formatBlockKey c == k) = true
    · simp [List.filter_cons, hc, ih]
    · have hc' : (formatBlockKey c == k) = false := by simpa using hc
      simp [List.filter_cons, hc', ih]

/-- Occurrences of key `k` among categorized child-block keys: all `N`
siblings with key `k` (all of type `t`) land in the single group determined
by `t`, and no other group receives any. -/
theorem categorizeBlocks_count (pre post : List String) (k t : String) :
    ∀ (blocks : List Block),
      (∀ c ∈ blocks.filter (fun c => formatBlockKey c == k), c.type = t) →
      (List.count k (categorizeBlocks pre post blocks).1 =
        (if stringExists pre t = true then (blocks.filter (fun c => formatBlockKey c == k)).length else 0)) ∧
      (List.count k (categorizeBlocks pre post blocks).2.1 =
        (if stringExists pre t = true then 0 else if stringExists post t = true then 0
         else (blocks.filter (fun c => formatBlockKey c == k)).length)) ∧
      (List.count k (categorizeBlocks pre post blocks).2.2 =
        (if stringExists pre t = true then 0 else if stringExists post t = true then
          (blocks.filter (fun c => formatBlockKey c == k)).length else 0)) := by
  intro blocks
  induction blocks with
  | nil =>
    intro _
    simp only [categorizeBlocks, List.filter_nil, List.length_nil, List.count_nil]
    refine ⟨by split <;> rfl, by split <;> (try split) <;> rfl, by split <;> (try split) <;> rfl⟩
  | cons b0 rest ih =>
    intro ht
    have htrest : ∀ c ∈ rest.filter (fun c => formatBlockKey c == k), c.type = t := by
      intro c hc
      apply ht
      rw [List.filter_cons]
      split
      · exact List.mem_cons_of_mem _ hc
      · exact hc
    obtain ⟨i0, i1, i2⟩ := ih htrest
    by_cases hb : (formatBlockKey b0 == k) = true
    · have hbt : b0.type = t := by
        apply ht
        rw [List.filter_cons, if_pos hb]
        exact List.mem_cons_self _ _
      have hbk : formatBlockKey b0 = k := by simpa using hb
      have hlen : ((b0 :: rest).filter (fun c => formatBlockKey c == k)).length =
          (rest.filter (fun c => formatBlockKey c == k)).length + 1 := by
        rw [List.filter_cons, if_pos hb]
        rfl
      unfold categorizeBlocks
      rw [hbt]
      by_cases hp : stringExists pre t = true
      · simp only [hp, if_true]
        refine ⟨?_, ?_, ?_⟩
        · simp only [List.count_cons, hbk, beq_self_eq_true, if_true, i0, hp, if_true, hlen]
        · simpa [hp] using i1
        · simpa [hp] using i2
      · have hp' : stringExists pre t = false := by simpa using hp
        by_cases hq : stringExists post t = true
        · simp only [hp', Bool.false_eq_true, if_false, hq, if_true]
          refine ⟨?_, ?_, ?_⟩
          · simpa [hp'] using i0
          · simpa [hp', hq] using i1
          · simp only [List.count_cons, hbk, beq_self_eq_true, if_true, i2, hp',
              Bool.false_eq_true, if_false, hq, if_true, hlen]
        · have hq' : stringExists post t = false := by simpa using hq
          simp only [hp', hq', Bool.false_eq_true, if_false]
          refine ⟨?_, ?_, ?_⟩
          · simpa [hp'] using i0
          · simp only [List.count_cons, hbk, beq_self_eq_true, if_true, i1, hp', hq',
              Bool.false_eq_true, if_false, hlen]
          · simpa [hp', hq'] using i2
    · have hb' : (formatBlockKey b0 == k) = false := by simpa using hb
      have hlen : ((b0 :: rest).filter (fun c => formatBlockKey c == k)).length =
          (rest.filter (fun c => formatBlockKey c == k)).length := by
        rw [List.filter_cons, if_neg (by simp [hb'])]
      unfold categorizeBlocks
      by_cases hp : stringExists pre b0.type = true
      · simp only [hp, if_true]
        refine ⟨?_, by rw [hlen]; exact i1, by rw [hlen]; exact i2⟩
        rw [List.count_cons]
        simp [hb', i0, hlen]
      · have hp' : stringExists pre b0.type = false := by simpa using hp
        by_cases hq : stringExists post b0.type = true
        · simp only [hp', Bool.false_eq_true, if_false, hq, if_true]
          refine ⟨by rw [hlen]; exact i0, by rw [hlen]; exact i1, ?_⟩
          rw [List.count_cons]
          simp [hb', i2, hlen]
        · have hq' : stringExists post b0.type = false := by simpa using hq
          simp only [hp', hq', Bool.false_eq_true, if_false]
          refine ⟨by rw [hlen]; exact i0, ?_, by rw [hlen]; exact i2⟩
          rw [List.count_cons]
          simp [hb', i1, hlen]



/-- Occurrence counts of key `k` in the three sorted key groups of
`getSortedBlockKeys`: the group of type `t` holds one occurrence per
sibling with key `k`; the other groups hold none. -/
theorem keys_counts (b : Block) (k t : String)
    (hattr : findAttr b.attributes k = none)
    (hty : ∀ c ∈ childBlocksByKey b.blocks k, c.type = t) :
    (List.count k (getSortedBlockKeysT b).1 =
      (if stringExists (getMetaArguments b).1 t = true then (childBlocksByKey b.blocks k).length else 0)) ∧
    (List.count k (getSortedBlockKeysT b).2.1 =
      (if stringExists (getMetaArguments b).1 t = true then 0
       else if stringExists (getMetaArguments b).2 t = true then 0
       else (childBlocksByKey b.blocks k).length)) ∧
    (List.count k (getSortedBlockKeysT b).2.2 =
      (if stringExists (getMetaArguments b).1 t = true then 0
       else if stringExists (getMetaArguments b).2 t = true then (childBlocksByKey b.blocks k).length
       else 0)) := by
  have hty' : ∀ c ∈ b.blocks.filter (fun c => formatBlockKey c == k), c.type = t := by
    intro c hc
    exact hty c hc
  obtain ⟨a0, a1, a2⟩ :=
    categorizeAttrs_count_zero (getMetaArguments b).1 (getMetaArguments b).2 k b.attributes hattr
  obtain ⟨c0, c1, c2⟩ :=
    categorizeBlocks_count (getMetaArguments b).1 (getMetaArguments b).2 k t b.blocks hty'
  unfold getSortedBlockKeysT
  simp only
  constructor
  · have hcsort : ∀ (l : List String),
        List.count k (if l.length > 0 then stableSort (preMetaCompare (getMetaArguments b).1) l else l) =
          List.count k l := by
      intro l
      split
      · exact count_stableSort _ _ _
      · rfl
    rw [hcsort, List.count_append, a0, c0]
    simp [childBlocksByKey]
  constructor
  · rw [count_stableSort, List.count_append, a1, c1]
    simp [childBlocksByKey]
  · rw [count_stableSort, List.count_append, a2, c2]
    simp [childBlocksByKey]



/-- C1: for every parent block whose `N` sibling child blocks sharing the
formatted key `k` all have type `t` (as when they share type and labels)
and whose attributes do not use that key, the successful serialization
consumes exactly those `N` siblings — each original child once, in order —
and each consumed child contributed its own recursive serialization
(`getSortedBlockBytesT` renders pair `(c, getSortedBlockBytesT s c)` for
each consumed `c`), so no sibling is duplicated or replaced by a copy of
the first match; the bytes agree with `getSortedBlockBytes`. -/
theorem duplicate_children_rendered_once (s : Sorter) (b : Block) (k t : String)
    (hattr : findAttr b.attributes k = none)
    (hty : ∀ c ∈ childBlocksByKey b.blocks k, c.type = t)
    (bytes : String) (trace : List Block)
    (hok : getSortedBlockBytesT s b = .ok (bytes, trace)) :
    trace.filter (fun c => formatBlockKey c == k) = childBlocksByKey b.blocks k ∧
    s.getSortedBlockBytes b = .ok bytes := by
  constructor
  · cases b with
    | mk ty ls attrs blocks rng =>
      simp only [getSortedBlockBytesT] at hok
      unfold assembleBlock at hok
      cases hop : Sorter.getBlockOpeningBytes s (Block.mk ty ls attrs blocks rng) with
      | error e => simp only [hop] at hok; cases hok
      | ok results =>
        simp only [hop] at hok
        cases hgl : groupsLoop s (Block.mk ty ls attrs blocks rng).attributes
            (renderChildrenPairs s blocks)
            (getPathFromBlock (Block.mk ty ls attrs blocks rng))
            [(getSortedBlockKeysT (Block.mk ty ls attrs blocks rng)).1,
             (getSortedBlockKeysT (Block.mk ty ls attrs blocks rng)).2.1,
             (getSortedBlockKeysT (Block.mk ty ls attrs blocks rng)).2.2] "" [] with
        | error e => simp only [hgl] at hok; cases hok
        | ok r =>
          simp only [hgl] at hok
          have htr : trace = r.2 := by
            cases hok
            rfl
          subst htr
          have hgt := groupsLoop_trace s (Block.mk ty ls attrs blocks rng).attributes
            (renderChildrenPairs s blocks)
            (getPathFromBlock (Block.mk ty ls attrs blocks rng)) k hattr
            [(getSortedBlockKeysT (Block.mk ty ls attrs blocks rng)).1,
             (getSortedBlockKeysT (Block.mk ty ls attrs blocks rng)).2.1,
             (getSortedBlockKeysT (Block.mk ty ls attrs blocks rng)).2.2] "" [] r hgl
          rw [hgt]
          rw [renderChildrenPairs_filter_map]
          simp only [List.map_cons, List.map_nil, List.join_cons, List.join_nil,
            List.filter_nil, List.nil_append, List.append_nil]
          obtain ⟨hc0, hc1, hc2⟩ := keys_counts (Block.mk ty ls attrs blocks rng) k t hattr hty
          rw [hc0, hc1, hc2]
          have hblocks : (Block.mk ty ls attrs blocks rng).blocks = blocks := rfl
          by_cases hp : stringExists (getMetaArguments (Block.mk ty ls attrs blocks rng)).1 t = true
        <;> by_cases hq : stringExists (getMetaArguments (Block.mk ty ls attrs blocks rng)).2 t = true
        <;> simp [hp, hq, hblocks, List.take_length]
  · unfold Sorter.getSortedBlockBytes
    rw [hok]
    rfl



/-- Range used by the C1 witness blocks. -/
def c1WitnessRange : SrcRange :=
  { filename := "main.tf", start := { line := 1, column := 1 }, stop := { line := 1, column := 5 } }

/-- First duplicate sibling of the C1 witness (empty body). -/
def c1WitnessChild1 : Block := .mk "bar" [] [] [] c1WitnessRange

/-- Second duplicate sibling of the C1 witness (distinct body with a
nested block). -/
def c1WitnessChild2 : Block := .mk "bar" [] [] [.mk "baz" [] [] [] c1WitnessRange] c1WitnessRange

/-- C1 witness parent with two sibling `bar` blocks of different bodies. -/
def c1WitnessParent : Block := .mk "foo" [] [] [c1WitnessChild1, c1WitnessChild2] c1WitnessRange

/-- Sorter used by the C1 witness (comments removed, no filesystem). -/
def c1WitnessSorter : Sorter :=
  { params := { removeComments := true }, fs := fun _ => none, linesCache := [], detectedHeaders := [] }


/-- C1 witness: a parent with two duplicate `bar` siblings of different
bodies serializes with both siblings present, the second rendered from its
own body (`baz` nested block), not as a clone of the first. -/
theorem duplicate_children_rendered_once_witness :
    findAttr c1WitnessParent.attributes "bar" = none ∧
    (∀ c ∈ childBlocksByKey c1WitnessParent.blocks "bar", c.type = "bar") ∧
    getSortedBlockBytesT c1WitnessSorter c1WitnessParent =
      .ok ("foo \x7b\nbar \x7b\n\x7d\n\nbar \x7b\nbaz \x7b\n\x7d\n\x7d\n\x7d\n", [c1WitnessChild1, c1WitnessChild2]) ∧
    List.filter (fun c => formatBlockKey c == "bar") [c1WitnessChild1, c1WitnessChild2] =
      childBlocksByKey c1WitnessParent.blocks "bar" ∧
    Sorter.getSortedBlockBytes c1WitnessSorter c1WitnessParent =
      .ok "foo \x7b\nbar \x7b\n\x7d\n\nbar \x7b\nbaz \x7b\n\x7d\n\x7d\n\x7d\n" := by
  have hty : ∀ c ∈ childBlocksByKey c1WitnessParent.blocks "bar", c.type = "bar" := by
    intro c hc
    have he : childBlocksByKey c1WitnessParent.blocks "bar" =
        [c1WitnessChild1, c1WitnessChild2] := rfl
    rw [he] at hc
    rcases List.mem_cons.mp hc with h | hc
    · rw [h]; rfl
    rcases List.mem_cons.mp hc with h | hc
    · rw [h]; rfl
    · cases hc
  have h := duplicate_children_rendered_once c1WitnessSorter c1WitnessParent "bar" "bar"
    rfl hty "foo \x7b\nbar \x7b\n\x7d\n\nbar \x7b\nbaz \x7b\n\x7d\n\x7d\n\x7d\n"
    [c1WitnessChild1, c1WitnessChild2] rfl
  exact ⟨rfl, hty, rfl, h.1, h.2⟩

end Tforganize
